import Mathlib

/-!
Verification of the recording processing and synchronization engine of the
secretary-mobile app.  The definitions below are shallow embeddings of:

* the Postgres function `transition_processing_state` from
  `supabase/migrations/20250115000000_add_processing_state_tracking.sql`
  (state writes, error merging, retry counting, backoff computation,
  three-valued ownership check);
* the queue driver of `services/queue.ts` (`processQueue` eligibility
  query and the per-recording stage dispatch with its shortcut rules);
* the manual retry reset of `RealtimeService.retryRecording`;
* the local store `StorageService.saveRecording` bound of 100 entries;
* the merge layer `RecordingService.getMergedRecordings`.

Tables are modelled as lists of rows, SQL `UPDATE ... WHERE id = ...` as a
`List.map` guarded on the id, `NULL`able columns as `Option`, timestamps as
integers, and the three-valued semantics of the SQL comparison
`v_user_id != auth.uid()` is embedded faithfully (`NULL` compares to
neither true nor false, so the rejection branch is skipped).
-/

/-- The `processing_state` Postgres enum. -/
inductive ProcessingState where
  | recorded
  | uploading
  | uploaded
  | transcribing
  | transcribed
  | webhook_sending
  | webhook_sent
  | completed
  | upload_failed
  | transcribe_failed
  | webhook_failed
deriving DecidableEq, Repr

/-- The three failure states tested by
`p_new_state IN ('upload_failed', 'transcribe_failed', 'webhook_failed')`. -/
def isFailureState : ProcessingState → Bool
  | .upload_failed => true
  | .transcribe_failed => true
  | .webhook_failed => true
  | _ => false

/-- One row of the `recordings` table (the columns the engine touches).
`user_id` is nullable in SQL, hence `Option`. -/
structure RecRow where
  id : String
  user_id : Option String
  timestamp : Int
  duration : Int
  audio_url : Option String
  transcript : Option String
  corrected_transcript : Option String
  title : Option String
  processing_state : ProcessingState
  processing_step : Nat
  processing_error : Option String
  retry_count : Nat
  next_retry_at : Option Int
  upload_progress : Nat
  last_state_change_at : Int
deriving DecidableEq, Repr

/-- SQL three-valued `a != b` being TRUE: a NULL on either side yields
NULL, which does not satisfy an `IF`. -/
def sqlNeqTrue : Option String → Option String → Bool
  | some a, some b => a != b
  | _, _ => false

/-- The `SET` clause of the `UPDATE` inside `transition_processing_state`,
applied to one row.  Every right-hand side reads the OLD row (SQL `UPDATE`
semantics), in particular the `retry_count` inside the `next_retry_at`
backoff is the pre-increment value.  `INTERVAL '1 minute'` is 60 seconds.
The `last_state_change_at` column is maintained by the
`update_last_state_change` trigger (`IS DISTINCT FROM` check). -/
def applyStateUpdate (now : Int) (p_new_state : ProcessingState)
    (p_error : Option String) (p_progress : Option Nat) (r : RecRow) : RecRow :=
  { r with
    processing_state := p_new_state
    processing_error :=
      match p_error with
      | some e => some e
      | none => if isFailureState p_new_state then r.processing_error else none
    upload_progress := p_progress.getD r.upload_progress
    retry_count :=
      if isFailureState p_new_state then r.retry_count + 1 else r.retry_count
    next_retry_at :=
      if isFailureState p_new_state then
        some (now + 60 * (2 : Int) ^ (min r.retry_count 5))
      else none
    last_state_change_at :=
      if r.processing_state == p_new_state then r.last_state_change_at else now }

/-- The `SELECT processing_state, user_id INTO v_current_state, v_user_id`
lookup: the `user_id` of the first row matching the id, NULL when no row
matches (or when the column itself is NULL). -/
def ownerOf (table : List RecRow) (rid : String) : Option String :=
  match table.find? (fun r => r.id == rid) with
  | some r => r.user_id
  | none => none

/-- The Postgres function `transition_processing_state(p_recording_id,
p_new_state, p_error, p_progress)`.  It selects `user_id` of the matching
row (NULL when no row matches), returns FALSE only when the ownership
comparison is TRUE, and otherwise applies the `UPDATE` to every row with
the given id and returns TRUE.  Note that the function never consults the
current `processing_state` of the row (`v_current_state` is selected but
unused in the source). -/
def transition_processing_state (table : List RecRow) (auth_uid : Option String)
    (now : Int) (p_recording_id : String) (p_new_state : ProcessingState)
    (p_error : Option String) (p_progress : Option Nat) : Bool × List RecRow :=
  if sqlNeqTrue (ownerOf table p_recording_id) auth_uid then
    (false, table)
  else
    (true, table.map (fun r =>
      if r.id == p_recording_id then
        applyStateUpdate now p_new_state p_error p_progress r
      else r))

/-- A guarded per-id rewrite of a table leaves it unchanged when no row
carries the id. -/
theorem map_guard_id_of_absent (rid : String) (f : RecRow → RecRow) :
    ∀ table : List RecRow, (∀ r ∈ table, (r.id == rid) = false) →
      table.map (fun r => if r.id == rid then f r else r) = table := by
  intro table
  induction table with
  | nil => intro _; rfl
  | cons a t ih =>
    intro hall
    have ha : (a.id == rid) = false := hall a (List.mem_cons_self a t)
    simp only [List.map_cons, ha, Bool.false_eq_true, if_false]
    rw [ih (fun r hr => hall r (List.mem_cons_of_mem a hr))]

/-- Claim C9: calling `transition_processing_state` with an id that matches
no row returns TRUE and leaves the table unchanged: the NULL `user_id`
makes the ownership comparison non-true, so the rejection branch is
skipped, and the UPDATE touches zero rows. -/
theorem transition_missing_id_reports_success (table : List RecRow)
    (auth_uid : Option String) (now : Int) (rid : String)
    (s : ProcessingState) (err : Option String) (prog : Option Nat)
    (h : table.find? (fun r => r.id == rid) = none) :
    transition_processing_state table auth_uid now rid s err prog = (true, table) := by
  have hall : ∀ r ∈ table, (r.id == rid) = false := by
    intro r hr
    have := List.find?_eq_none.mp h r hr
    simpa using this
  have hneq : sqlNeqTrue none auth_uid = false := by
    cases auth_uid <;> rfl
  have howner : ownerOf table rid = none := by
    unfold ownerOf
    rw [h]
  unfold transition_processing_state
  rw [howner]
  simp only [hneq, Bool.false_eq_true, if_false]
  rw [map_guard_id_of_absent rid _ table hall]

/-- Witness for C9 at a concrete empty-match table. -/
theorem transition_missing_id_reports_success_witness :
    transition_processing_state [] (some "user-1") 0 "rec-none"
      ProcessingState.uploaded none none = (true, []) :=
  transition_missing_id_reports_success [] (some "user-1") 0 "rec-none"
    ProcessingState.uploaded none none rfl

/-- Row constructor used by concrete scenarios (fields not under test get
neutral values). -/
def mkRow (rid : String) (uid : Option String) (s : ProcessingState)
    (errv : Option String) (rc : Nat) (nra : Option Int) : RecRow :=
  { id := rid
    user_id := uid
    timestamp := 0
    duration := 5
    audio_url := none
    transcript := none
    corrected_transcript := none
    title := none
    processing_state := s
    processing_step := 0
    processing_error := errv
    retry_count := rc
    next_retry_at := nra
    upload_progress := 0
    last_state_change_at := 0 }

/-- An accepted call of `transition_processing_state` carries every row
with the target id to its `applyStateUpdate` image in the result table. -/
theorem transition_accepted_mem (table : List RecRow) (auth_uid : Option String)
    (now : Int) (rid : String) (s : ProcessingState) (err : Option String)
    (prog : Option Nat) (r : RecRow) (hr : r ∈ table) (hid : r.id = rid)
    (hok : (transition_processing_state table auth_uid now rid s err prog).1 = true) :
    applyStateUpdate now s err prog r ∈
      (transition_processing_state table auth_uid now rid s err prog).2 := by
  by_cases hc : sqlNeqTrue (ownerOf table rid) auth_uid = true
  · exfalso
    unfold transition_processing_state at hok
    rw [if_pos hc] at hok
    simp at hok
  · unfold transition_processing_state
    rw [if_neg hc]
    have hbeq : (r.id == rid) = true := by simp [hid]
    have hmem := List.mem_map_of_mem
      (fun x : RecRow => if x.id == rid then applyStateUpdate now s err prog x else x) hr
    simpa [hbeq] using hmem

/-- The backoff function as the spec states it:
`backoff(n) = min(baseUnit * 2^min(n,5), capUnit)`.  With `baseUnit` one
minute (60 s) and `capUnit` 32 minutes (1920 s) this is the shape realized
by `NOW() + INTERVAL '1 minute' * POWER(2, LEAST(retry_count, 5))`. -/
def specBackoff (baseUnit capUnit : Int) (n : Nat) : Int :=
  min (baseUnit * (2 : Int) ^ (min n 5)) capUnit

/-- With the migration's concrete units the cap never binds, so the spec
formula collapses to the code's `60 * 2^min(n,5)`. -/
theorem specBackoff_eq_code (n : Nat) :
    specBackoff 60 1920 n = 60 * (2 : Int) ^ (min n 5) := by
  unfold specBackoff
  have h1 : min n 5 ≤ 5 := min_le_right n 5
  have h2 : (2 : Int) ^ (min n 5) ≤ (2 : Int) ^ (5 : Nat) :=
    pow_le_pow_right₀ (by norm_num) h1
  have h3 : (60 : Int) * (2 : Int) ^ (min n 5) ≤ 60 * (2 : Int) ^ (5 : Nat) :=
    mul_le_mul_of_nonneg_left h2 (by norm_num)
  have h4 : (60 : Int) * (2 : Int) ^ (5 : Nat) = 1920 := by norm_num
  exact min_eq_left (by rw [h4] at h3; exact h3)

/-- Claim C3 (amended): an accepted transition into a failure state sets
`retryCount' = retryCount + 1` but computes the backoff from the
PRE-increment count (SQL `UPDATE` right-hand sides read the old row):
`nextEligibleRetryAt' = now + backoff(retryCount' - 1)`.  After the first
failure the delay is `baseUnit * 2^0 = baseUnit`, not `baseUnit * 2`. -/
theorem transition_failure_backoff (table : List RecRow) (auth_uid : Option String)
    (now : Int) (rid : String) (s : ProcessingState) (err : Option String)
    (prog : Option Nat) (r : RecRow) (hs : isFailureState s = true)
    (hr : r ∈ table) (hid : r.id = rid)
    (hok : (transition_processing_state table auth_uid now rid s err prog).1 = true) :
    ∃ r2 ∈ (transition_processing_state table auth_uid now rid s err prog).2,
      r2.processing_state = s ∧
      r2.retry_count = r.retry_count + 1 ∧
      r2.next_retry_at = some (now + specBackoff 60 1920 r.retry_count) := by
  refine ⟨applyStateUpdate now s err prog r,
    transition_accepted_mem table auth_uid now rid s err prog r hr hid hok, ?_, ?_, ?_⟩
  · rfl
  · simp [applyStateUpdate, hs]
  · simp [applyStateUpdate, hs, specBackoff_eq_code]

/-- Witness for C3's amended theorem: a third failure of a recording with
`retry_count = 2` schedules the retry `60 * 2^2 = 240` seconds out. -/
theorem transition_failure_backoff_witness :
    ∃ r2 ∈ (transition_processing_state
        [mkRow "w3" (some "u") ProcessingState.transcribing none 2 none]
        (some "u") 50 "w3" ProcessingState.transcribe_failed (some "timeout") none).2,
      r2.processing_state = ProcessingState.transcribe_failed ∧
      r2.retry_count = 2 + 1 ∧
      r2.next_retry_at = some (50 + specBackoff 60 1920 2) :=
  transition_failure_backoff
    [mkRow "w3" (some "u") ProcessingState.transcribing none 2 none]
    (some "u") 50 "w3" ProcessingState.transcribe_failed (some "timeout") none
    (mkRow "w3" (some "u") ProcessingState.transcribing none 2 none)
    rfl (List.mem_singleton.mpr rfl) rfl rfl

/-- Counterexample to claim C3 as stated: the very first failure
(`retryCount' = 1`) of a fresh recording at `now = 0` gets
`next_retry_at = 60` (one base unit), whereas the claimed formula
`now + backoff(retryCount')` gives `0 + specBackoff 60 1920 1 = 120`. -/
theorem transition_first_failure_delay_is_one_base_unit :
    ((transition_processing_state
        [mkRow "rec-3" (some "u") ProcessingState.uploading none 0 none]
        (some "u") 0 "rec-3" ProcessingState.upload_failed (some "timeout") none).2.map
          RecRow.retry_count = [1]) ∧
    ((transition_processing_state
        [mkRow "rec-3" (some "u") ProcessingState.uploading none 0 none]
        (some "u") 0 "rec-3" ProcessingState.upload_failed (some "timeout") none).2.map
          RecRow.next_retry_at = [some 60]) ∧
    (0 : Int) + specBackoff 60 1920 1 = 120 ∧
    some (60 : Int) ≠ some ((0 : Int) + specBackoff 60 1920 1) := by
  refine ⟨rfl, rfl, by decide, by decide⟩

/-- Claim C4 (amended): an accepted transition into a non-failure state
always clears `nextEligibleRetryAt` and leaves `retryCount` unchanged, but
`lastError` becomes exactly the caller-supplied error argument: it is
cleared only when no error argument is supplied. -/
theorem transition_nonfailure_clears_fields (table : List RecRow)
    (auth_uid : Option String) (now : Int) (rid : String) (s : ProcessingState)
    (err : Option String) (prog : Option Nat) (r : RecRow)
    (hs : isFailureState s = false) (hr : r ∈ table) (hid : r.id = rid)
    (hok : (transition_processing_state table auth_uid now rid s err prog).1 = true) :
    ∃ r2 ∈ (transition_processing_state table auth_uid now rid s err prog).2,
      r2.processing_state = s ∧
      r2.next_retry_at = none ∧
      r2.processing_error = err ∧
      r2.retry_count = r.retry_count := by
  refine ⟨applyStateUpdate now s err prog r,
    transition_accepted_mem table auth_uid now rid s err prog r hr hid hok, ?_, ?_, ?_, ?_⟩
  · rfl
  · simp [applyStateUpdate, hs]
  · cases err with
    | none => simp [applyStateUpdate, hs]
    | some e => simp [applyStateUpdate]
  · simp [applyStateUpdate, hs]

/-- Witness for C4's amended theorem: moving to `uploaded` with no error
argument clears both `processing_error` and `next_retry_at`. -/
theorem transition_nonfailure_clears_fields_witness :
    ∃ r2 ∈ (transition_processing_state
        [mkRow "w4" (some "u") ProcessingState.upload_failed (some "old") 2 (some 99)]
        (some "u") 7 "w4" ProcessingState.uploaded none (some 100)).2,
      r2.processing_state = ProcessingState.uploaded ∧
      r2.next_retry_at = none ∧
      r2.processing_error = none ∧
      r2.retry_count = 2 :=
  transition_nonfailure_clears_fields
    [mkRow "w4" (some "u") ProcessingState.upload_failed (some "old") 2 (some 99)]
    (some "u") 7 "w4" ProcessingState.uploaded none (some 100)
    (mkRow "w4" (some "u") ProcessingState.upload_failed (some "old") 2 (some 99))
    rfl (List.mem_singleton.mpr rfl) rfl rfl

/-- Counterexample to claim C4 as stated: a transition to the non-failure
state `uploaded` with an error argument supplied stores that error instead
of clearing `lastError` (the `CASE WHEN p_error IS NOT NULL THEN p_error`
arm fires before the non-failure `ELSE NULL` arm). -/
theorem transition_nonfailure_keeps_supplied_error :
    ((transition_processing_state
        [mkRow "rec-4" (some "u") ProcessingState.uploading none 0 none]
        (some "u") 0 "rec-4" ProcessingState.uploaded (some "stale") none).2.map
          RecRow.processing_error = [some "stale"]) ∧
    ([some "stale"] ≠ ([none] : List (Option String))) ∧
    ((transition_processing_state
        [mkRow "rec-4" (some "u") ProcessingState.uploading none 0 none]
        (some "u") 0 "rec-4" ProcessingState.uploaded (some "stale") none).2.map
          RecRow.next_retry_at = [none]) := by
  refine ⟨rfl, by decide, rfl⟩

/-- Claim C2 (code bug evidence): `transition_processing_state` has no
idempotency guard — `v_current_state` is selected but never compared.
Re-invoking with the same failure state while already in it increments
`retry_count` again (1 → 2) and recomputes `next_retry_at` (160 → 220),
instead of being a no-op success. -/
theorem transition_repeat_failure_not_idempotent :
    ((transition_processing_state
        [mkRow "rec-2" (some "u") ProcessingState.uploading none 0 none]
        (some "u") 100 "rec-2" ProcessingState.upload_failed (some "boom") none).2.map
          RecRow.retry_count = [1]) ∧
    ((transition_processing_state
        [mkRow "rec-2" (some "u") ProcessingState.uploading none 0 none]
        (some "u") 100 "rec-2" ProcessingState.upload_failed (some "boom") none).2.map
          RecRow.next_retry_at = [some 160]) ∧
    ((transition_processing_state
        (transition_processing_state
          [mkRow "rec-2" (some "u") ProcessingState.uploading none 0 none]
          (some "u") 100 "rec-2" ProcessingState.upload_failed (some "boom") none).2
        (some "u") 100 "rec-2" ProcessingState.upload_failed (some "boom") none).1 = true) ∧
    ((transition_processing_state
        (transition_processing_state
          [mkRow "rec-2" (some "u") ProcessingState.uploading none 0 none]
          (some "u") 100 "rec-2" ProcessingState.upload_failed (some "boom") none).2
        (some "u") 100 "rec-2" ProcessingState.upload_failed (some "boom") none).2.map
          RecRow.retry_count = [2]) ∧
    ((transition_processing_state
        (transition_processing_state
          [mkRow "rec-2" (some "u") ProcessingState.uploading none 0 none]
          (some "u") 100 "rec-2" ProcessingState.upload_failed (some "boom") none).2
        (some "u") 100 "rec-2" ProcessingState.upload_failed (some "boom") none).2.map
          RecRow.next_retry_at = [some 220]) :=
  ⟨rfl, rfl, rfl, rfl, rfl⟩

/-- JavaScript truthiness of a nullable string: `null`/`undefined` and the
empty string are falsy. -/
def strTruthy : Option String → Bool
  | none => false
  | some s => !(s == "")

/-- The legal transition edges of the spec: the happy path
`recorded → uploading → uploaded → transcribing → transcribed →
webhook_sending → webhook_sent → completed`, sideways into each failure
state from its in-flight state, sideways out again (retry back into the
in-flight state, or the manual-retry reset to the preceding stable state),
plus the documented shortcuts (already-uploaded, file-missing-but-
transcribed, no-webhook-configured, webhook-success straight to
completed). -/
def specLegalEdge : ProcessingState → ProcessingState → Bool
  | .recorded, .uploading => true
  | .uploading, .uploaded => true
  | .uploaded, .transcribing => true
  | .transcribing, .transcribed => true
  | .transcribed, .webhook_sending => true
  | .webhook_sending, .webhook_sent => true
  | .webhook_sent, .completed => true
  | .uploading, .upload_failed => true
  | .transcribing, .transcribe_failed => true
  | .webhook_sending, .webhook_failed => true
  | .upload_failed, .uploading => true
  | .transcribe_failed, .transcribing => true
  | .webhook_failed, .webhook_sending => true
  | .upload_failed, .recorded => true
  | .transcribe_failed, .uploaded => true
  | .webhook_failed, .transcribed => true
  | .recorded, .uploaded => true
  | .upload_failed, .uploaded => true
  | .uploading, .completed => true
  | .transcribed, .completed => true
  | .webhook_failed, .completed => true
  | .webhook_sending, .completed => true
  | _, _ => false

/-- Result of one run of `QueueService.uploadRecording`: the sequence of
`processing_state` values written (via `updateRecordingState` RPC calls and
the direct `audio_url` table update), and whether
`supabaseService.uploadAudio` was invoked. -/
structure UploadOutcome where
  emitted : List ProcessingState
  uploadAttempted : Bool
deriving DecidableEq, Repr

/-- Model of `QueueService.uploadRecording`, as a function of the row and of the
environment: the local store lookup result (`fileUri` of the matching
local recording, if any), whether `FileSystem.getInfoAsync` reports the
file as existing, and whether the upload call succeeds.  Mirrors the
source branch for branch: the `audio_url` shortcut, the
missing-file-with-transcript shortcut to `completed`, the throw-and-catch
paths to `upload_failed`, and the success path writing `uploaded` twice
(direct table update, then the RPC). -/
def uploadRecordingModel (db : RecRow) (localFileUri : Option String)
    (fileOnDisk : Bool) (uploadOk : Bool) : UploadOutcome :=
  if strTruthy db.audio_url then
    { emitted := [.uploaded], uploadAttempted := false }
  else if !(strTruthy localFileUri) then
    if strTruthy db.transcript then
      { emitted := [.uploading, .completed], uploadAttempted := false }
    else
      { emitted := [.uploading, .upload_failed], uploadAttempted := false }
  else if !fileOnDisk then
    if strTruthy db.transcript then
      { emitted := [.uploading, .completed], uploadAttempted := false }
    else
      { emitted := [.uploading, .upload_failed], uploadAttempted := false }
  else if uploadOk then
    { emitted := [.uploading, .uploaded, .uploaded], uploadAttempted := true }
  else
    { emitted := [.uploading, .upload_failed], uploadAttempted := true }

/-- Model of `QueueService.transcribeRecording`: always first writes `transcribing`;
then the simulator-mock branch or the Groq branch succeed into
`transcribed` (written twice: direct update then RPC), and every other
branch (including the unimplemented remote-transcription fallback) throws
into `transcribe_failed`.  `simMock` is the value of
`mockAudioService.isSimulator() && localRecording?.fileUri.includes(...)`. -/
def transcribeRecordingModel (db : RecRow) (simMock : Bool)
    (localFileUri : Option String) (groqOk : Bool) : List ProcessingState :=
  if simMock then
    [.transcribing, .transcribed, .transcribed]
  else if strTruthy localFileUri then
    if groqOk then [.transcribing, .transcribed, .transcribed]
    else [.transcribing, .transcribe_failed]
  else if strTruthy db.audio_url then
    [.transcribing, .transcribe_failed]
  else
    [.transcribing, .transcribe_failed]

/-- Model of `QueueService.sendWebhook`: with no webhook URL configured (empty
string is falsy) it shortcuts straight to `completed`; otherwise it writes
`webhook_sending`, then `completed` on delivery success (direct update then
RPC) or `webhook_failed` on failure. -/
def sendWebhookModel (webhookUrl : String) (webhookOk : Bool) :
    List ProcessingState :=
  if webhookUrl == "" then
    [.completed]
  else if webhookOk then
    [.webhook_sending, .completed, .completed]
  else
    [.webhook_sending, .webhook_failed]

/-- Model of `QueueService.processRecording`: dispatch on the current state; states
outside the six dispatchable ones are skipped with no write. -/
def processRecordingModel (db : RecRow) (localFileUri : Option String)
    (fileOnDisk : Bool) (uploadOk : Bool) (simMock : Bool) (groqOk : Bool)
    (webhookUrl : String) (webhookOk : Bool) : List ProcessingState :=
  match db.processing_state with
  | .recorded => (uploadRecordingModel db localFileUri fileOnDisk uploadOk).emitted
  | .upload_failed => (uploadRecordingModel db localFileUri fileOnDisk uploadOk).emitted
  | .uploaded => transcribeRecordingModel db simMock localFileUri groqOk
  | .transcribe_failed => transcribeRecordingModel db simMock localFileUri groqOk
  | .transcribed => sendWebhookModel webhookUrl webhookOk
  | .webhook_failed => sendWebhookModel webhookUrl webhookOk
  | _ => []

/-- Every consecutive pair of state writes along a path is either a no-op
re-write of the same state or a legal spec edge. -/
def edgesOk : ProcessingState → List ProcessingState → Bool
  | _, [] => true
  | a, b :: rest => (a == b || specLegalEdge a b) && edgesOk b rest

/-- Upload-stage writes follow legal edges when dispatched from `recorded`. -/
theorem uploadStage_edges_from_recorded (db : RecRow) (lf : Option String)
    (fd : Bool) (uo : Bool) :
    edgesOk ProcessingState.recorded (uploadRecordingModel db lf fd uo).emitted = true := by
  unfold uploadRecordingModel
  cases hau : strTruthy db.audio_url <;>
  cases hlf : strTruthy lf <;>
  cases htr : strTruthy db.transcript <;>
  cases fd <;> cases uo <;>
  simp [hau, hlf, htr, edgesOk, specLegalEdge]

/-- Upload-stage writes follow legal edges when dispatched from
`upload_failed`. -/
theorem uploadStage_edges_from_upload_failed (db : RecRow) (lf : Option String)
    (fd : Bool) (uo : Bool) :
    edgesOk ProcessingState.upload_failed (uploadRecordingModel db lf fd uo).emitted = true := by
  unfold uploadRecordingModel
  cases hau : strTruthy db.audio_url <;>
  cases hlf : strTruthy lf <;>
  cases htr : strTruthy db.transcript <;>
  cases fd <;> cases uo <;>
  simp [hau, hlf, htr, edgesOk, specLegalEdge]

/-- Transcription-stage writes follow legal edges from `uploaded`. -/
theorem transcribeStage_edges_from_uploaded (db : RecRow) (sm : Bool)
    (lf : Option String) (go : Bool) :
    edgesOk ProcessingState.uploaded (transcribeRecordingModel db sm lf go) = true := by
  unfold transcribeRecordingModel
  cases sm <;> cases hlf : strTruthy lf <;> cases go <;>
  cases hau : strTruthy db.audio_url <;>
  simp [hlf, hau, edgesOk, specLegalEdge]

/-- Transcription-stage writes follow legal edges from `transcribe_failed`. -/
theorem transcribeStage_edges_from_transcribe_failed (db : RecRow) (sm : Bool)
    (lf : Option String) (go : Bool) :
    edgesOk ProcessingState.transcribe_failed (transcribeRecordingModel db sm lf go) = true := by
  unfold transcribeRecordingModel
  cases sm <;> cases hlf : strTruthy lf <;> cases go <;>
  cases hau : strTruthy db.audio_url <;>
  simp [hlf, hau, edgesOk, specLegalEdge]

/-- Webhook-stage writes follow legal edges from `transcribed`. -/
theorem webhookStage_edges_from_transcribed (wu : String) (wok : Bool) :
    edgesOk ProcessingState.transcribed (sendWebhookModel wu wok) = true := by
  unfold sendWebhookModel
  cases hwu : wu == "" <;> cases wok <;>
  simp [hwu, edgesOk, specLegalEdge]

/-- Webhook-stage writes follow legal edges from `webhook_failed`. -/
theorem webhookStage_edges_from_webhook_failed (wu : String) (wok : Bool) :
    edgesOk ProcessingState.webhook_failed (sendWebhookModel wu wok) = true := by
  unfold sendWebhookModel
  cases hwu : wu == "" <;> cases wok <;>
  simp [hwu, edgesOk, specLegalEdge]

/-- Counterexample to claim C1 as stated: `transition_processing_state`
validates nothing but ownership, so an accepted call commits a state write
along an arbitrary edge — here `completed → recorded`, which is neither a
happy-path step, a sideways failure move, nor a documented shortcut. -/
theorem transition_commits_illegal_edge :
    ((transition_processing_state
        [mkRow "rec-1" (some "u") ProcessingState.completed none 0 none]
        (some "u") 7 "rec-1" ProcessingState.recorded none none).1 = true) ∧
    ((transition_processing_state
        [mkRow "rec-1" (some "u") ProcessingState.completed none 0 none]
        (some "u") 7 "rec-1" ProcessingState.recorded none none).2.map
          RecRow.processing_state = [ProcessingState.recorded]) ∧
    specLegalEdge ProcessingState.completed ProcessingState.recorded = false ∧
    ProcessingState.completed ≠ ProcessingState.recorded :=
  ⟨rfl, rfl, rfl, by decide⟩

/-- Claim C1 (amended): the edge discipline is enforced not by the
transition function but by the Queue Driver's dispatch: whatever the
environment does (file present or not, upload/transcription/webhook
succeeding or failing, webhook configured or not), every state write that
`processRecording` issues follows a legal spec edge (or re-writes the
current state) starting from the recording's dispatch state. -/
theorem processRecording_edges_legal (db : RecRow) (localFileUri : Option String)
    (fileOnDisk : Bool) (uploadOk : Bool) (simMock : Bool) (groqOk : Bool)
    (webhookUrl : String) (webhookOk : Bool) :
    edgesOk db.processing_state
      (processRecordingModel db localFileUri fileOnDisk uploadOk simMock groqOk
        webhookUrl webhookOk) = true := by
  cases hst : db.processing_state <;> simp only [processRecordingModel, hst]
  case recorded => exact uploadStage_edges_from_recorded db localFileUri fileOnDisk uploadOk
  case upload_failed =>
    exact uploadStage_edges_from_upload_failed db localFileUri fileOnDisk uploadOk
  case uploaded => exact transcribeStage_edges_from_uploaded db simMock localFileUri groqOk
  case transcribe_failed =>
    exact transcribeStage_edges_from_transcribe_failed db simMock localFileUri groqOk
  case transcribed => exact webhookStage_edges_from_transcribed webhookUrl webhookOk
  case webhook_failed => exact webhookStage_edges_from_webhook_failed webhookUrl webhookOk
  all_goals rfl

/-- Claim C7: the upload stage's shortcut rules.  (a) With a remote
`audio_url` already present the recording is moved straight to `uploaded`
and no upload is attempted.  (b) With no usable local file (no local
recording, empty `fileUri`, or file missing on disk) but a transcript
present, it is moved to `completed` — not to a failure state — and no
upload is attempted.  (c) Only when neither shortcut applies is the upload
performed, ending in `uploaded` on success and `upload_failed` on error. -/
theorem uploadRecording_shortcut_rules (db : RecRow) (localFileUri : Option String)
    (fileOnDisk : Bool) (uploadOk : Bool) :
    (strTruthy db.audio_url = true →
      uploadRecordingModel db localFileUri fileOnDisk uploadOk
        = { emitted := [.uploaded], uploadAttempted := false }) ∧
    (strTruthy db.audio_url = false →
      (strTruthy localFileUri = false ∨ fileOnDisk = false) →
      strTruthy db.transcript = true →
      uploadRecordingModel db localFileUri fileOnDisk uploadOk
        = { emitted := [.uploading, .completed], uploadAttempted := false }) ∧
    (strTruthy db.audio_url = false →
      strTruthy localFileUri = true →
      fileOnDisk = true →
      (uploadRecordingModel db localFileUri fileOnDisk uploadOk).uploadAttempted = true ∧
      (uploadRecordingModel db localFileUri fileOnDisk uploadOk).emitted
        = (if uploadOk then [.uploading, .uploaded, .uploaded]
           else [.uploading, .upload_failed])) := by
  refine ⟨?_, ?_, ?_⟩
  · intro hau
    simp [uploadRecordingModel, hau]
  · intro hau hmiss htr
    rcases hmiss with hlf | hfd
    · simp [uploadRecordingModel, hau, hlf, htr]
    · cases hlf : strTruthy localFileUri <;>
        simp [uploadRecordingModel, hau, hlf, hfd, htr]
  · intro hau hlf hfd
    cases uploadOk <;> simp [uploadRecordingModel, hau, hlf, hfd]

/-- Witness for C7: each of the three branches at a concrete input — a row
with a remote url, a row with a missing file but a transcript, and a plain
upload that succeeds. -/
theorem uploadRecording_shortcut_rules_witness :
    (uploadRecordingModel
        { mkRow "a" (some "u") ProcessingState.recorded none 0 none with
            audio_url := some "https://x/a.m4a" } none false false
      = { emitted := [.uploaded], uploadAttempted := false }) ∧
    (uploadRecordingModel
        { mkRow "b" (some "u") ProcessingState.recorded none 0 none with
            transcript := some "hello" } none true true
      = { emitted := [.uploading, .completed], uploadAttempted := false }) ∧
    ((uploadRecordingModel (mkRow "c" (some "u") ProcessingState.recorded none 0 none)
        (some "file:///rec/c.m4a") true true).uploadAttempted = true ∧
      (uploadRecordingModel (mkRow "c" (some "u") ProcessingState.recorded none 0 none)
        (some "file:///rec/c.m4a") true true).emitted
          = (if true then [.uploading, .uploaded, .uploaded]
             else [.uploading, .upload_failed])) :=
  ⟨(uploadRecording_shortcut_rules
      { mkRow "a" (some "u") ProcessingState.recorded none 0 none with
          audio_url := some "https://x/a.m4a" } none false false).1 rfl,
   (uploadRecording_shortcut_rules
      { mkRow "b" (some "u") ProcessingState.recorded none 0 none with
          transcript := some "hello" } none true true).2.1 rfl (Or.inl rfl) rfl,
   (uploadRecording_shortcut_rules (mkRow "c" (some "u") ProcessingState.recorded none 0 none)
      (some "file:///rec/c.m4a") true true).2.2 rfl rfl rfl⟩

/-- The retry-target mapping of `RealtimeService.retryRecording`: each
failure state resets to the state immediately preceding the failure; any
other state is "not in a failed state" and is refused. -/
def retryStateFor : ProcessingState → Option ProcessingState
  | .upload_failed => some .recorded
  | .transcribe_failed => some .uploaded
  | .webhook_failed => some .transcribed
  | _ => none

/-- The row image of the manual-retry `UPDATE`: retry state,
`processing_error = null`, `retry_count = 0`, `next_retry_at = null`; the
`update_last_state_change` trigger stamps `last_state_change_at`. -/
def retryResetRow (now : Int) (rs : ProcessingState) (row : RecRow) : RecRow :=
  { row with
    processing_state := rs
    processing_error := none
    retry_count := 0
    next_retry_at := none
    last_state_change_at :=
      if row.processing_state == rs then row.last_state_change_at else now }

/-- Model of `RealtimeService.retryRecording`: fetch the recording's state; refuse
when it is missing or not in a failed state; otherwise update the row. -/
def retryRecording (table : List RecRow) (now : Int) (rid : String) :
    Bool × List RecRow :=
  match table.find? (fun r => r.id == rid) with
  | none => (false, table)
  | some r =>
    match retryStateFor r.processing_state with
    | none => (false, table)
    | some rs =>
      (true, table.map (fun row =>
        if row.id == rid then retryResetRow now rs row else row))

/-- Claim C6: manual retry of a recording in a failure state succeeds and
resets it to the state immediately preceding the failure with `lastError`
cleared, `retryCount` zeroed and `nextEligibleRetryAt` cleared. -/
theorem retryRecording_resets_failed (table : List RecRow) (now : Int)
    (rid : String) (r : RecRow)
    (hfind : table.find? (fun x => x.id == rid) = some r)
    (hf : isFailureState r.processing_state = true) :
    (retryRecording table now rid).1 = true ∧
    ∀ row ∈ (retryRecording table now rid).2, row.id = rid →
      some row.processing_state = retryStateFor r.processing_state ∧
      row.processing_error = none ∧
      row.retry_count = 0 ∧
      row.next_retry_at = none := by
  obtain ⟨rs, hrs⟩ : ∃ rs, retryStateFor r.processing_state = some rs := by
    cases hst : r.processing_state <;>
      simp [retryStateFor] <;> simp [isFailureState, hst] at hf
  have hres : retryRecording table now rid
      = (true, table.map (fun row =>
          if row.id == rid then retryResetRow now rs row else row)) := by
    unfold retryRecording
    simp only [hfind, hrs]
  have hmm : ∀ (t : List RecRow) row,
      row ∈ t.map (fun x => if x.id == rid then retryResetRow now rs x else x) →
      row.id = rid →
      some row.processing_state = some rs ∧
      row.processing_error = none ∧
      row.retry_count = 0 ∧
      row.next_retry_at = none := by
    intro t
    induction t with
    | nil =>
      intro row h
      simp at h
    | cons a tl ih =>
      intro row hrow hid2
      rw [List.map_cons] at hrow
      rcases List.mem_cons.mp hrow with hhead | htail
      · by_cases hid3 : (a.id == rid) = true
        · rw [if_pos hid3] at hhead
          subst hhead
          exact ⟨rfl, rfl, rfl, rfl⟩
        · rw [if_neg hid3] at hhead
          subst hhead
          exact absurd (by simp [hid2]) hid3
      · exact ih row htail hid2
  refine ⟨by rw [hres], ?_⟩
  intro row hrow hrowid
  rw [hres] at hrow
  rw [hrs]
  exact hmm table row hrow hrowid

/-- Witness for C6: a `transcribe_failed` recording is reset to `uploaded`
with the retry bookkeeping cleared. -/
theorem retryRecording_resets_failed_witness :
    (retryRecording
        [mkRow "w6" (some "u") ProcessingState.transcribe_failed (some "boom") 3 (some 500)]
        900 "w6").1 = true ∧
    ∀ row ∈ (retryRecording
        [mkRow "w6" (some "u") ProcessingState.transcribe_failed (some "boom") 3 (some 500)]
        900 "w6").2, row.id = "w6" →
      some row.processing_state
          = retryStateFor ProcessingState.transcribe_failed ∧
      row.processing_error = none ∧
      row.retry_count = 0 ∧
      row.next_retry_at = none :=
  retryRecording_resets_failed
    [mkRow "w6" (some "u") ProcessingState.transcribe_failed (some "boom") 3 (some 500)]
    900 "w6"
    (mkRow "w6" (some "u") ProcessingState.transcribe_failed (some "boom") 3 (some 500))
    rfl rfl

/-- Constant `MAX_RETRY_COUNT` from `utils/constants.ts`. -/
def MAX_RETRY_COUNT : Nat := 3

/-- The `.in('processing_state', [...])` filter of
`QueueService.processQueue`. -/
def eligibleState : ProcessingState → Bool
  | .recorded => true
  | .uploaded => true
  | .transcribed => true
  | .upload_failed => true
  | .transcribe_failed => true
  | .webhook_failed => true
  | _ => false

/-- The `.or('next_retry_at.is.null,next_retry_at.lte.now()')` filter. -/
def nextRetryOk (now : Int) : Option Int → Bool
  | none => true
  | some t => decide (t ≤ now)

/-- One row's eligibility under the `processQueue` query:
`user_id = uid`, dispatchable state, `retry_count < MAX_RETRY_COUNT`, and
no pending backoff. -/
def queueEligible (uid : String) (now : Int) (r : RecRow) : Bool :=
  r.user_id == some uid &&
  eligibleState r.processing_state &&
  decide (r.retry_count < MAX_RETRY_COUNT) &&
  nextRetryOk now r.next_retry_at

/-- The selection of `QueueService.processQueue`: the filtered rows,
ordered by `timestamp` ascending, limited to 5. -/
def processQueueSelection (table : List RecRow) (uid : String) (now : Int) :
    List RecRow :=
  (List.insertionSort (fun a b => a.timestamp ≤ b.timestamp)
    (table.filter (queueEligible uid now))).take 5

instance : IsTotal RecRow (fun a b => a.timestamp ≤ b.timestamp) :=
  ⟨fun a b => le_total a.timestamp b.timestamp⟩

instance : IsTrans RecRow (fun a b => a.timestamp ≤ b.timestamp) :=
  ⟨fun _ _ _ hab hbc => le_trans hab hbc⟩

/-- Claim C5: a recording is selected by a queue tick only if its state is
dispatchable, its retry budget is not exhausted and its backoff has
expired; the batch is at most 5, ordered oldest first; a recording at
`retryCount = MAX_RETRY_COUNT` is never selected; and (conversely) every
eligible recording is selected whenever the eligible set fits the batch. -/
theorem processQueue_eligibility (table : List RecRow) (uid : String) (now : Int) :
    (∀ r ∈ processQueueSelection table uid now,
      r ∈ table ∧
      r.user_id = some uid ∧
      eligibleState r.processing_state = true ∧
      r.retry_count < MAX_RETRY_COUNT ∧
      nextRetryOk now r.next_retry_at = true) ∧
    (processQueueSelection table uid now).length ≤ 5 ∧
    (processQueueSelection table uid now).Sorted (fun a b => a.timestamp ≤ b.timestamp) ∧
    (∀ r ∈ table, r.retry_count = MAX_RETRY_COUNT →
      r ∉ processQueueSelection table uid now) ∧
    ((table.filter (queueEligible uid now)).length ≤ 5 →
      ∀ r ∈ table, queueEligible uid now r = true →
      r ∈ processQueueSelection table uid now) := by
  have hmem : ∀ r ∈ processQueueSelection table uid now,
      r ∈ table ∧ queueEligible uid now r = true := by
    intro r hr
    have h1 : r ∈ List.insertionSort (fun a b => a.timestamp ≤ b.timestamp)
        (table.filter (queueEligible uid now)) := List.mem_of_mem_take hr
    have h2 : r ∈ table.filter (queueEligible uid now) := by
      rw [List.mem_insertionSort] at h1
      exact h1
    exact List.mem_filter.mp h2
  refine ⟨?_, ?_, ?_, ?_, ?_⟩
  · intro r hr
    obtain ⟨htab, helig⟩ := hmem r hr
    simp only [queueEligible, Bool.and_eq_true, beq_iff_eq, decide_eq_true_eq] at helig
    exact ⟨htab, helig.1.1.1, helig.1.1.2, helig.1.2, helig.2⟩
  · unfold processQueueSelection
    rw [List.length_take]
    exact min_le_left _ _
  · have hs : (List.insertionSort (fun a b => a.timestamp ≤ b.timestamp)
        (table.filter (queueEligible uid now))).Sorted
          (fun a b => a.timestamp ≤ b.timestamp) :=
      List.sorted_insertionSort _ _
    exact hs.sublist (List.take_sublist _ _)
  · intro r _ hrc hsel
    obtain ⟨_, helig⟩ := hmem r hsel
    simp only [queueEligible, Bool.and_eq_true, decide_eq_true_eq] at helig
    omega
  · intro hlen r hr helig
    have hfil : r ∈ table.filter (queueEligible uid now) :=
      List.mem_filter.mpr ⟨hr, helig⟩
    have hslen : (List.insertionSort (fun a b => a.timestamp ≤ b.timestamp)
        (table.filter (queueEligible uid now))).length ≤ 5 := by
      rw [(List.perm_insertionSort _ _).length_eq]
      exact hlen
    unfold processQueueSelection
    rw [List.take_of_length_le hslen, List.mem_insertionSort]
    exact hfil

/-- Witness for C5: a single eligible `upload_failed` recording with
expired backoff is selected. -/
theorem processQueue_eligibility_witness :
    mkRow "w5" (some "u") ProcessingState.upload_failed (some "e") 2 (some 40)
      ∈ processQueueSelection
          [mkRow "w5" (some "u") ProcessingState.upload_failed (some "e") 2 (some 40)]
          "u" 100 :=
  (processQueue_eligibility
      [mkRow "w5" (some "u") ProcessingState.upload_failed (some "e") 2 (some 40)]
      "u" 100).2.2.2.2 (by decide)
    (mkRow "w5" (some "u") ProcessingState.upload_failed (some "e") 2 (some 40))
    (List.mem_singleton.mpr rfl) (by decide)

/-- The `syncStatus` union `'local' | 'syncing' | 'synced'` (`local` is a
Lean keyword, hence the underscore). -/
inductive SyncStatus where
  | local_
  | syncing
  | synced
deriving DecidableEq, Repr

/-- The legacy `Recording` interface of `types/index.ts`, the shape held in
the device-local store and returned by `supabaseService.getRecordings`. -/
structure Recording where
  id : String
  timestamp : Int
  duration : Int
  fileUri : String
  transcript : Option String
  correctedTranscript : Option String
  title : Option String
  status : String
  syncStatus : Option SyncStatus
  retryCount : Nat
  webhookStatus : Option String
  webhookLastSentAt : Option Int
  error : Option String
deriving DecidableEq, Repr

/-- Model of `StorageService.saveRecording`: `unshift` the new recording onto the
stored list, then `slice(0, 100)` before persisting. -/
def saveRecording (recording : Recording) (stored : List Recording) :
    List Recording :=
  (recording :: stored).take 100

/-- Claim C10: after `saveRecording` the persisted list has at most 100
entries, the new recording sits in first position, and everything beyond
the first 99 previously stored entries is silently dropped. -/
theorem saveRecording_caps_at_100 (recording : Recording)
    (stored : List Recording) :
    (saveRecording recording stored).length ≤ 100 ∧
    (saveRecording recording stored).head? = some recording ∧
    saveRecording recording stored = recording :: stored.take 99 := by
  have h : saveRecording recording stored = recording :: stored.take 99 := by
    unfold saveRecording
    rw [show (100 : Nat) = 99 + 1 from rfl, List.take_succ_cons]
  refine ⟨?_, ?_, h⟩
  · rw [h]
    simp only [List.length_cons, List.length_take]
    omega
  · rw [h]
    rfl

/-- The `source` discriminator of `MergedRecording`
(`'local' | 'database' | 'both'`). -/
inductive Source where
  | local_
  | database
  | both
deriving DecidableEq, Repr

/-- Record type `MergedRecording extends Recording` with the provenance marker, as in
`recordingService.ts`. -/
structure MergedRecording extends Recording where
  source : Source
deriving DecidableEq, Repr

/-- Model of `Map.set(id, x)` on the JS `Map` keyed by recording id, modelled on an
association list with at most one entry per key: replace the entry with
the key if present, else append. -/
def upsert (m : List MergedRecording) (x : MergedRecording) :
    List MergedRecording :=
  if m.any (fun e => e.toRecording.id == x.toRecording.id) then
    m.map (fun e => if e.toRecording.id == x.toRecording.id then x else e)
  else
    m ++ [x]

/-- The value written when a database copy meets an existing entry:
`{...existingRecording, source: 'both', syncStatus: 'synced'}`. -/
def mkBothEntry (e : MergedRecording) : MergedRecording :=
  { toRecording := { e.toRecording with syncStatus := some SyncStatus.synced }
    source := Source.both }

/-- Processing one database recording in `getMergedRecordings`: if the id
is already in the map, keep the existing (local) fields and re-mark them
`both`/`synced`; otherwise insert the database copy marked `database`. -/
def mergeDbOne (m : List MergedRecording) (r : Recording) :
    List MergedRecording :=
  match m.find? (fun e => e.toRecording.id == r.id) with
  | some ex => upsert m (mkBothEntry ex)
  | none => m ++ [{ toRecording := r, source := Source.database }]

/-- Model of `RecordingService.getMergedRecordings`: insert all local recordings
first, then process the database recordings, then sort by timestamp
descending. -/
def getMergedRecordings (locals dbs : List Recording) : List MergedRecording :=
  let m1 := locals.foldl
    (fun acc r => upsert acc { toRecording := r, source := Source.local_ }) []
  let m2 := dbs.foldl mergeDbOne m1
  List.insertionSort
    (fun a b => b.toRecording.timestamp ≤ a.toRecording.timestamp) m2

/-- The entries of the merged map carrying a given id. -/
def entriesFor (i : String) (m : List MergedRecording) : List MergedRecording :=
  m.filter (fun e => e.toRecording.id == i)

/-- The at-most-one-entry-per-key invariant of the id-keyed map. -/
def UniqIds (m : List MergedRecording) : Prop :=
  ∀ j, (entriesFor j m).length ≤ 1

/-- The function `entriesFor` distributes over append. -/
theorem entriesFor_append (i : String) (m1 m2 : List MergedRecording) :
    entriesFor i (m1 ++ m2) = entriesFor i m1 ++ entriesFor i m2 := by
  unfold entriesFor
  exact List.filter_append _ _

/-- The function `entriesFor` keeps a matching head. -/
theorem entriesFor_cons_pos (i : String) (a : MergedRecording)
    (t : List MergedRecording) (h : (a.toRecording.id == i) = true) :
    entriesFor i (a :: t) = a :: entriesFor i t := by
  unfold entriesFor
  simp [List.filter_cons, h]

/-- The function `entriesFor` drops a non-matching head. -/
theorem entriesFor_cons_neg (i : String) (a : MergedRecording)
    (t : List MergedRecording) (h : (a.toRecording.id == i) = false) :
    entriesFor i (a :: t) = entriesFor i t := by
  unfold entriesFor
  simp [List.filter_cons, h]

/-- Replacing every entry keyed like `x` by `x` turns the entries for that
key into copies of `x`. -/
theorem entriesFor_mapSet (m : List MergedRecording) (x : MergedRecording) :
    entriesFor x.toRecording.id
      (m.map (fun e => if e.toRecording.id == x.toRecording.id then x else e))
    = List.replicate (entriesFor x.toRecording.id m).length x := by
  induction m with
  | nil => rfl
  | cons a t ih =>
    by_cases h : (a.toRecording.id == x.toRecording.id) = true
    · rw [List.map_cons, if_pos h]
      rw [entriesFor_cons_pos _ x _ (by simp),
        entriesFor_cons_pos _ a _ h]
      rw [List.length_cons, List.replicate_succ, ih]
    · have hb : (a.toRecording.id == x.toRecording.id) = false := by
        simpa using h
      rw [List.map_cons, if_neg h]
      rw [entriesFor_cons_neg _ a _ hb, entriesFor_cons_neg _ a _ hb]
      exact ih

/-- After `upsert m x` (with unique keys) the entries for `x`'s key are
exactly `[x]`. -/
theorem upsert_entriesFor_self (m : List MergedRecording) (x : MergedRecording)
    (h : UniqIds m) :
    entriesFor x.toRecording.id (upsert m x) = [x] := by
  unfold upsert
  by_cases hany : (m.any (fun e => e.toRecording.id == x.toRecording.id)) = true
  · rw [if_pos hany, entriesFor_mapSet]
    have hge : 1 ≤ (entriesFor x.toRecording.id m).length := by
      obtain ⟨e, he, hid⟩ := List.any_eq_true.mp hany
      exact List.length_pos_of_mem (List.mem_filter.mpr ⟨he, hid⟩)
    have hle := h x.toRecording.id
    have hlen : (entriesFor x.toRecording.id m).length = 1 := by omega
    rw [hlen]
    rfl
  · rw [if_neg hany, entriesFor_append]
    have hnil : entriesFor x.toRecording.id m = [] := by
      unfold entriesFor
      rw [List.filter_eq_nil_iff]
      intro e he
      have := List.any_eq_true.not.mp hany
      push_neg at this
      exact this e he
    rw [hnil, entriesFor_cons_pos _ x _ (by simp)]
    rfl

/-- Replacing entries keyed like `x` leaves the entries for a different
key untouched. -/
theorem entriesFor_mapSet_other (m : List MergedRecording) (x : MergedRecording)
    (j : String) (hj : (x.toRecording.id == j) = false) :
    entriesFor j
      (m.map (fun e => if e.toRecording.id == x.toRecording.id then x else e))
    = entriesFor j m := by
  induction m with
  | nil => rfl
  | cons a t ih =>
    by_cases h : (a.toRecording.id == x.toRecording.id) = true
    · have haj : (a.toRecording.id == j) = false := by
        have hax : a.toRecording.id = x.toRecording.id := by simpa using h
        rw [hax]
        exact hj
      rw [List.map_cons, if_pos h]
      rw [entriesFor_cons_neg _ x _ hj, entriesFor_cons_neg _ a _ haj]
      exact ih
    · rw [List.map_cons, if_neg h]
      by_cases haj : (a.toRecording.id == j) = true
      · rw [entriesFor_cons_pos _ a _ haj, entriesFor_cons_pos _ a _ haj, ih]
      · have hb : (a.toRecording.id == j) = false := by simpa using haj
        rw [entriesFor_cons_neg _ a _ hb, entriesFor_cons_neg _ a _ hb]
        exact ih

/-- Calling `upsert m x` leaves the entries for every other key untouched. -/
theorem upsert_entriesFor_other (m : List MergedRecording) (x : MergedRecording)
    (j : String) (hj : (x.toRecording.id == j) = false) :
    entriesFor j (upsert m x) = entriesFor j m := by
  unfold upsert
  by_cases hany : (m.any (fun e => e.toRecording.id == x.toRecording.id)) = true
  · rw [if_pos hany]
    exact entriesFor_mapSet_other m x j hj
  · rw [if_neg hany, entriesFor_append]
    rw [entriesFor_cons_neg _ x _ hj]
    exact List.append_nil _

/-- The function `upsert` preserves the unique-keys invariant. -/
theorem upsert_uniq (m : List MergedRecording) (x : MergedRecording)
    (h : UniqIds m) : UniqIds (upsert m x) := by
  intro j
  by_cases hx : (x.toRecording.id == j) = true
  · have hxe : x.toRecording.id = j := by simpa using hx
    rw [← hxe, upsert_entriesFor_self m x h]
    exact le_refl 1
  · rw [upsert_entriesFor_other m x j (by simpa using hx)]
    exact h j

/-- The function `find?` returns the head of the filtered list. -/
theorem find?_eq_head?_filter {α : Type} (p : α → Bool) :
    ∀ l : List α, l.find? p = (l.filter p).head? := by
  intro l
  induction l with
  | nil => rfl
  | cons a t ih =>
    by_cases h : p a = true
    · rw [List.find?_cons_of_pos t h, List.filter_cons_of_pos h]
      rfl
    · rw [List.find?_cons_of_neg t h, List.filter_cons_of_neg h]
      exact ih

/-- Folding local inserts whose ids all differ from `i` does not change
the entries for `i`. -/
theorem foldl_upsert_local_absent (i : String) :
    ∀ (locals : List Recording) (acc : List MergedRecording),
      (∀ r ∈ locals, (r.id == i) = false) →
      entriesFor i (locals.foldl
        (fun acc r => upsert acc { toRecording := r, source := Source.local_ }) acc)
      = entriesFor i acc := by
  intro locals
  induction locals with
  | nil => intro acc _; rfl
  | cons x xs ih =>
    intro acc hall
    rw [List.foldl_cons]
    rw [ih _ (fun r hr => hall r (List.mem_cons_of_mem x hr))]
    exact upsert_entriesFor_other acc _ i (hall x (List.mem_cons_self x xs))

/-- Folding local inserts preserves the unique-keys invariant. -/
theorem foldl_upsert_local_uniq :
    ∀ (locals : List Recording) (acc : List MergedRecording), UniqIds acc →
      UniqIds (locals.foldl
        (fun acc r => upsert acc { toRecording := r, source := Source.local_ }) acc) := by
  intro locals
  induction locals with
  | nil => intro acc h; exact h
  | cons x xs ih =>
    intro acc h
    rw [List.foldl_cons]
    exact ih _ (upsert_uniq acc _ h)

/-- Phase 1 of the merge: when exactly one local recording carries id `i`,
the map afterwards holds exactly its local-marked copy under `i`. -/
theorem phase1_entriesFor (i : String) :
    ∀ (locals : List Recording) (acc : List MergedRecording) (l : Recording),
      UniqIds acc →
      locals.filter (fun r => r.id == i) = [l] →
      entriesFor i (locals.foldl
        (fun acc r => upsert acc { toRecording := r, source := Source.local_ }) acc)
      = [{ toRecording := l, source := Source.local_ }] := by
  intro locals
  induction locals with
  | nil =>
    intro acc l _ hfil
    simp at hfil
  | cons x xs ih =>
    intro acc l hacc hfil
    by_cases hx : (x.id == i) = true
    · simp only [List.filter_cons, hx, if_true] at hfil
      injection hfil with h1 h2
      have habs : ∀ r ∈ xs, (r.id == i) = false := by
        intro r hr
        have := List.filter_eq_nil_iff.mp h2 r hr
        simpa using this
      rw [List.foldl_cons]
      rw [foldl_upsert_local_absent i xs _ habs]
      have hself : entriesFor x.id
          (upsert acc { toRecording := x, source := Source.local_ })
          = [{ toRecording := x, source := Source.local_ }] :=
        upsert_entriesFor_self acc { toRecording := x, source := Source.local_ } hacc
      have hxi : x.id = i := by simpa using hx
      rw [← hxi, hself, h1]
    · have hxb : (x.id == i) = false := by simpa using hx
      simp only [List.filter_cons, hxb, Bool.false_eq_true, if_false] at hfil
      rw [List.foldl_cons]
      exact ih _ l (upsert_uniq acc _ hacc) hfil

/-- When the merged map already holds exactly `e` under `r.id`, processing
the database copy `r` replaces it with `mkBothEntry e`. -/
theorem mergeDbOne_entriesFor_self (m : List MergedRecording) (r : Recording)
    (e : MergedRecording) (h : UniqIds m)
    (he : entriesFor r.id m = [e]) :
    entriesFor r.id (mergeDbOne m r) = [mkBothEntry e] := by
  have hfind : m.find? (fun x => x.toRecording.id == r.id) = some e := by
    rw [find?_eq_head?_filter]
    show (entriesFor r.id m).head? = some e
    rw [he]
    rfl
  have heid : e.toRecording.id = r.id := by
    have hmem : e ∈ entriesFor r.id m := by
      rw [he]
      exact List.mem_singleton.mpr rfl
    unfold entriesFor at hmem
    have := List.mem_filter.mp hmem
    simpa using this.2
  unfold mergeDbOne
  rw [hfind]
  have hself : entriesFor e.toRecording.id (upsert m (mkBothEntry e))
      = [mkBothEntry e] :=
    upsert_entriesFor_self m (mkBothEntry e) h
  rw [heid] at hself
  exact hself

/-- Processing a database copy whose id differs from `j` does not change
the entries for `j`. -/
theorem mergeDbOne_entriesFor_other (m : List MergedRecording) (r : Recording)
    (j : String) (hj : (r.id == j) = false) :
    entriesFor j (mergeDbOne m r) = entriesFor j m := by
  unfold mergeDbOne
  cases hfind : m.find? (fun x => x.toRecording.id == r.id) with
  | none =>
    rw [entriesFor_append]
    rw [entriesFor_cons_neg j { toRecording := r, source := Source.database } [] hj]
    exact List.append_nil _
  | some ex =>
    have hexr : ex.toRecording.id = r.id := by
      have := List.find?_some hfind
      simpa using this
    have hjx : ((mkBothEntry ex).toRecording.id == j) = false := by
      show (ex.toRecording.id == j) = false
      rw [hexr]
      exact hj
    exact upsert_entriesFor_other m _ j hjx

/-- The function `mergeDbOne` preserves the unique-keys invariant. -/
theorem mergeDbOne_uniq (m : List MergedRecording) (r : Recording)
    (h : UniqIds m) : UniqIds (mergeDbOne m r) := by
  unfold mergeDbOne
  cases hfind : m.find? (fun x => x.toRecording.id == r.id) with
  | some ex => exact upsert_uniq m _ h
  | none =>
    intro j
    rw [entriesFor_append]
    by_cases hj : (r.id == j) = true
    · have habs := List.find?_eq_none.mp hfind
      have hnil : entriesFor j m = [] := by
        unfold entriesFor
        rw [List.filter_eq_nil_iff]
        intro e he
        have hrj : r.id = j := by simpa using hj
        rw [← hrj]
        exact habs e he
      rw [hnil]
      rw [entriesFor_cons_pos j { toRecording := r, source := Source.database } []
        (by simpa using hj)]
      simp [entriesFor]
    · rw [entriesFor_cons_neg j { toRecording := r, source := Source.database } []
        (by simpa using hj)]
      have : entriesFor j ([] : List MergedRecording) = [] := rfl
      rw [this, List.append_nil]
      exact h j

/-- Folding database copies whose ids all differ from `i` does not change
the entries for `i`. -/
theorem foldl_mergeDb_absent (i : String) :
    ∀ (dbs : List Recording) (m : List MergedRecording),
      (∀ r ∈ dbs, (r.id == i) = false) →
      entriesFor i (dbs.foldl mergeDbOne m) = entriesFor i m := by
  intro dbs
  induction dbs with
  | nil => intro m _; rfl
  | cons x xs ih =>
    intro m hall
    rw [List.foldl_cons]
    rw [ih _ (fun r hr => hall r (List.mem_cons_of_mem x hr))]
    exact mergeDbOne_entriesFor_other m x i (hall x (List.mem_cons_self x xs))

/-- Re-marking an already-`both` entry is a no-op. -/
theorem mkBothEntry_idem (e : MergedRecording) :
    mkBothEntry (mkBothEntry e) = mkBothEntry e := rfl

/-- Phase 2 of the merge: a map holding exactly `e` under `i` ends holding
exactly `mkBothEntry e` once some database copy carries id `i`. -/
theorem phase2_entriesFor (i : String) :
    ∀ (dbs : List Recording) (m : List MergedRecording) (e : MergedRecording),
      UniqIds m → entriesFor i m = [e] →
      dbs.any (fun r => r.id == i) = true →
      entriesFor i (dbs.foldl mergeDbOne m) = [mkBothEntry e] := by
  intro dbs
  induction dbs with
  | nil =>
    intro m e _ _ hany
    simp at hany
  | cons x xs ih =>
    intro m e hm he hany
    rw [List.foldl_cons]
    by_cases hx : (x.id == i) = true
    · have hxi : x.id = i := by simpa using hx
      have he2 : entriesFor i (mergeDbOne m x) = [mkBothEntry e] := by
        have hx2 := mergeDbOne_entriesFor_self m x e hm (by rw [hxi]; exact he)
        rw [hxi] at hx2
        exact hx2
      have hm2 : UniqIds (mergeDbOne m x) := mergeDbOne_uniq m x hm
      by_cases hrest : xs.any (fun r => r.id == i) = true
      · have hres := ih (mergeDbOne m x) (mkBothEntry e) hm2 he2 hrest
        rw [hres, mkBothEntry_idem]
      · have habs : ∀ r ∈ xs, (r.id == i) = false := by
          intro r hr
          have h2 := List.any_eq_true.not.mp hrest
          push_neg at h2
          simpa using h2 r hr
        rw [foldl_mergeDb_absent i xs _ habs]
        exact he2
    · have hxb : (x.id == i) = false := by simpa using hx
      have hany2 : xs.any (fun r => r.id == i) = true := by
        rw [List.any_cons] at hany
        simpa [hxb] using hany
      exact ih (mergeDbOne m x) e (mergeDbOne_uniq m x hm)
        (by rw [mergeDbOne_entriesFor_other m x i hxb]; exact he) hany2

/-- Claim C8: when exactly one local recording and at least one database
recording carry id `i`, the merged view holds exactly one record for `i`,
equal to the local copy in every field except `source = both` and
`syncStatus = synced` — in particular a non-null local `transcript` is
never overwritten by a null remote value. -/
theorem getMergedRecordings_prefers_local (locals dbs : List Recording)
    (i : String) (l : Recording)
    (hl : locals.filter (fun r => r.id == i) = [l])
    (hdb : dbs.any (fun r => r.id == i) = true) :
    entriesFor i (getMergedRecordings locals dbs)
      = [{ toRecording := { l with syncStatus := some SyncStatus.synced }
           source := Source.both }] := by
  have huniq0 : UniqIds ([] : List MergedRecording) := by
    intro j
    simp [entriesFor]
  have hm1 : entriesFor i (locals.foldl
      (fun acc r => upsert acc { toRecording := r, source := Source.local_ }) [])
      = [{ toRecording := l, source := Source.local_ }] :=
    phase1_entriesFor i locals [] l huniq0 hl
  have hm1u : UniqIds (locals.foldl
      (fun acc r => upsert acc { toRecording := r, source := Source.local_ }) []) :=
    foldl_upsert_local_uniq locals [] huniq0
  have hm2 : entriesFor i (dbs.foldl mergeDbOne (locals.foldl
      (fun acc r => upsert acc { toRecording := r, source := Source.local_ }) []))
      = [mkBothEntry { toRecording := l, source := Source.local_ }] :=
    phase2_entriesFor i dbs _ _ hm1u hm1 hdb
  have hperm : List.Perm
      (entriesFor i (getMergedRecordings locals dbs))
      (entriesFor i (dbs.foldl mergeDbOne (locals.foldl
        (fun acc r => upsert acc { toRecording := r, source := Source.local_ }) []))) := by
    unfold getMergedRecordings
    exact (List.perm_insertionSort _ _).filter _
  rw [hm2] at hperm
  exact List.perm_singleton.mp hperm

/-- Concrete local and remote copies of the same id used by the C8
witness: locally a transcript is present, remotely it is null. -/
def wLocalRec : Recording :=
  { id := "m1"
    timestamp := 5
    duration := 3
    fileUri := "file:///a.m4a"
    transcript := some "local words"
    correctedTranscript := none
    title := some "t"
    status := "local"
    syncStatus := some SyncStatus.local_
    retryCount := 0
    webhookStatus := none
    webhookLastSentAt := none
    error := none }

/-- The remote copy of `wLocalRec`'s id with a null transcript. -/
def wDbRec : Recording :=
  { id := "m1"
    timestamp := 5
    duration := 3
    fileUri := "https://x/a.m4a"
    transcript := none
    correctedTranscript := none
    title := none
    status := "uploaded"
    syncStatus := some SyncStatus.synced
    retryCount := 0
    webhookStatus := none
    webhookLastSentAt := none
    error := none }

/-- Witness for C8: the merged record keeps the local transcript. -/
theorem getMergedRecordings_prefers_local_witness :
    entriesFor "m1" (getMergedRecordings [wLocalRec] [wDbRec])
      = [{ toRecording := { wLocalRec with syncStatus := some SyncStatus.synced }
           source := Source.both }] :=
  getMergedRecordings_prefers_local [wLocalRec] [wDbRec] "m1" wLocalRec
    (by decide) (by decide)
